import Mathlib

/-!
A shallow embedding of `strict_int.hpp`.

The header is a C++ template library, so the embedding has two layers.

* A small model of the native integer types the templates are instantiated
  with (`CType`, integer promotion, the usual arithmetic conversions,
  integral conversion, arithmetic with undefined signed overflow).  The data
  model is LP64 (Linux x86-64): `int` is 32 bits, `long`, `long long`,
  `std::size_t`, `int_fast64_t` are 64 bits and `int_leastN_t` is exactly
  `N` bits wide.
* The library itself: `portable_limits`, the `try_*` primitives, the
  `Overflow::Wrap` and `Overflow::Throw` specialisations of `integer_ops`,
  `strict_int::min/max`, and `int_cast`.

Raw values are mathematical integers (`Int`); every native operation states
its own wrap-around (`% 2 ^ bits`) or its own undefined case (`none`).
-/

namespace strict_int

/-! ## The enumerations of the header -/

/-- The header's `enum class Overflow`. -/
inductive Overflow where
  | Wrap
  | Throw
  | Clamp
  deriving DecidableEq, Repr

/-- The header's `enum class Sign`. -/
inductive Sign where
  | Signed
  | Unsigned
  deriving DecidableEq, Repr

/-- The header's `enum class Error`. -/
inductive Error where
  | None
  | Underflow
  | Overflow
  | DivisionByZero
  deriving DecidableEq, Repr

/-! ## Native integer types -/

/-- A native integer type: its signedness and its width in bits. -/
structure CType where
  sign : Sign
  bits : Nat
  deriving DecidableEq, Repr

/-- The C++ type `int`. -/
def CType.int : CType := ⟨Sign.Signed, 32⟩
/-- The C++ type `long long` (the type of the literals `0LL`, `1LL`). -/
def CType.long_long : CType := ⟨Sign.Signed, 64⟩
/-- The C++ type `unsigned long long` (the type of the literal `1ULL`). -/
def CType.unsigned_long_long : CType := ⟨Sign.Unsigned, 64⟩
/-- The type `int_fast64_t`. -/
def CType.int_fast64_t : CType := ⟨Sign.Signed, 64⟩
/-- The type `uint_fast64_t`. -/
def CType.uint_fast64_t : CType := ⟨Sign.Unsigned, 64⟩

/-- Two to the power `n`, as an integer. -/
def pow2 (n : Nat) : Int := ((2 ^ n : Nat) : Int)

/-- Smallest value of a native type. -/
def CType.lo (t : CType) : Int :=
  match t.sign with
  | Sign.Signed => -(pow2 (t.bits - 1))
  | Sign.Unsigned => 0

/-- Largest value of a native type. -/
def CType.hi (t : CType) : Int :=
  match t.sign with
  | Sign.Signed => pow2 (t.bits - 1) - 1
  | Sign.Unsigned => pow2 t.bits - 1

/-- Integral conversion of the mathematical value `x` to the type `t`: the
value of `t` congruent to `x` modulo `2 ^ bits`. -/
def convert (t : CType) (x : Int) : Int :=
  match t.sign with
  | Sign.Unsigned => x % pow2 t.bits
  | Sign.Signed => (x + pow2 (t.bits - 1)) % pow2 t.bits - pow2 (t.bits - 1)

/-- The result of an arithmetic operator evaluated in type `t`, given the
exact result `x`: unsigned arithmetic is modulo `2 ^ bits`; signed arithmetic
whose exact result is not representable is undefined (`none`). -/
def arith (t : CType) (x : Int) : Option Int :=
  match t.sign with
  | Sign.Unsigned => some (x % pow2 t.bits)
  | Sign.Signed => if t.lo ≤ x ∧ x ≤ t.hi then some x else none

/-- Integer promotion: types narrower than `int` promote to `int`. -/
def promote (t : CType) : CType :=
  if t.bits < 32 then CType.int else t

/-- The usual arithmetic conversions for two operand types: both are
promoted; the wider type wins, and at equal width the unsigned one. -/
def common (t u : CType) : CType :=
  let t := promote t
  let u := promote u
  if t.bits < u.bits then u
  else if u.bits < t.bits then t
  else if t.sign = Sign.Unsigned then t else u

/-- A typed value: the operand of a native operator. -/
structure Val where
  ty : CType
  v : Int
  deriving DecidableEq, Repr

/-- Native `x + y`. -/
def Val.add (x y : Val) : Option Val :=
  let ct := common x.ty y.ty
  (arith ct (convert ct x.v + convert ct y.v)).map (Val.mk ct)

/-- Native `x - y`. -/
def Val.sub (x y : Val) : Option Val :=
  let ct := common x.ty y.ty
  (arith ct (convert ct x.v - convert ct y.v)).map (Val.mk ct)

/-- Native `x / y`: truncating division; a zero divisor is undefined. -/
def Val.div (x y : Val) : Option Val :=
  let ct := common x.ty y.ty
  if convert ct y.v = 0 then none
  else (arith ct (Int.tdiv (convert ct x.v) (convert ct y.v))).map (Val.mk ct)

/-- Native `x * y`. -/
def Val.mul (x y : Val) : Option Val :=
  let ct := common x.ty y.ty
  (arith ct (convert ct x.v * convert ct y.v)).map (Val.mk ct)

/-- Native unary `-x`, evaluated in the promoted type of `x`. -/
def Val.neg (x : Val) : Option Val :=
  let t := promote x.ty
  (arith t (-(convert t x.v))).map (Val.mk t)

/-- Native `x << n` with a shift count `n` of type `std::size_t`.  The result
has the promoted type of `x`.  A count of at least the width is undefined;
an unsigned operand is shifted modulo `2 ^ bits`; a signed operand must be
non-negative and `x * 2 ^ n` must fit the unsigned counterpart of the type,
and that value is converted to the type. -/
def Val.shl (x : Val) (n : Nat) : Option Val :=
  let t := promote x.ty
  let v := convert t x.v
  if t.bits ≤ n then none
  else match t.sign with
    | Sign.Unsigned => some ⟨t, (v * pow2 n) % pow2 t.bits⟩
    | Sign.Signed =>
      if 0 ≤ v ∧ v * pow2 n < pow2 t.bits then some ⟨t, convert t (v * pow2 n)⟩
      else none

/-- Native `x >> n` with a shift count `n` of type `std::size_t`.  The result
has the promoted type of `x`; a count of at least the width is undefined;
the shift is arithmetic (the quotient by `2 ^ n` rounded down). -/
def Val.shr (x : Val) (n : Nat) : Option Val :=
  let t := promote x.ty
  let v := convert t x.v
  if t.bits ≤ n then none
  else some ⟨t, v / pow2 n⟩

/-- Native `x < y`. -/
def Val.lt (x y : Val) : Bool :=
  let ct := common x.ty y.ty
  decide (convert ct x.v < convert ct y.v)

/-- Native `x > y`. -/
def Val.gt (x y : Val) : Bool := Val.lt y x

/-- Native `x == y`. -/
def Val.eq (x y : Val) : Bool :=
  let ct := common x.ty y.ty
  decide (convert ct x.v = convert ct y.v)

/-- The literal `0` of type `int`. -/
def Val.zero : Val := ⟨CType.int, 0⟩

/-! ## Representation selector -/

/-- The header's `int_repr<sign, bits>::type`: `int_leastN_t` or
`uint_leastN_t`, which is exactly `N` bits wide on this platform. -/
def int_repr (sign : Sign) (bits : Nat) : CType := ⟨sign, bits⟩

/-! ## Portable limits -/

/-- The members of a limits class `L` handed to the `try_*` primitives:
the return type of `L::min()` and `L::max()` and their values. -/
structure Limits where
  limit_type : CType
  min : Int
  max : Int
  deriving DecidableEq, Repr

/-- The expression `1ULL << (bits-1)`. -/
def one_ull_shl (bits : Nat) : Int :=
  convert CType.unsigned_long_long (1 * pow2 (bits - 1))

/-- The expression `1LL << (bits-1)`: the exact product `1 * 2 ^ (bits-1)`
converted to `long long`. -/
def one_ll_shl (bits : Nat) : Int :=
  convert CType.long_long (1 * pow2 (bits - 1))

/-- The header's `portable_limits<bits, Sign::Unsigned>::min()`. -/
def portable_limits_unsigned_min (_bits : Nat) : Int := 0

/-- The header's `portable_limits<bits, Sign::Unsigned>::max()`:
`(1ULL << (bits-1)) - 1`, computed in `unsigned long long` and returned as
`uint_fast64_t`. -/
def portable_limits_unsigned_max (bits : Nat) : Int :=
  convert CType.uint_fast64_t
    (convert CType.unsigned_long_long (one_ull_shl bits - 1))

/-- The header's `portable_limits<bits, Sign::Signed>::min()`:
`(1ULL << (bits-1)) ^ ~0LL`.  The right operand `~0LL` is converted to
`unsigned long long`, the exclusive or is taken there, and the result is
returned as `int_fast64_t`. -/
def portable_limits_signed_min (bits : Nat) : Int :=
  convert CType.int_fast64_t
    ((Nat.xor (one_ull_shl bits).toNat
        (convert CType.unsigned_long_long (~~~ (0 : Int))).toNat : Nat) : Int)

/-- The header's `portable_limits<bits, Sign::Signed>::max()`:
`~(1LL << (bits-1))`, returned as `int_fast64_t`. -/
def portable_limits_signed_max (bits : Nat) : Int :=
  convert CType.int_fast64_t (~~~ (one_ll_shl bits))

/-- The header's `portable_limits<bits, sign>`. -/
def portable_limits (bits : Nat) (sign : Sign) : Limits :=
  match sign with
  | Sign.Unsigned =>
      ⟨CType.uint_fast64_t, portable_limits_unsigned_min bits,
        portable_limits_unsigned_max bits⟩
  | Sign.Signed =>
      ⟨CType.int_fast64_t, portable_limits_signed_min bits,
        portable_limits_signed_max bits⟩

/-! ## Outcomes of library calls -/

/-- The exceptions the header throws, with their `what()` text. -/
inductive Exception where
  | underflow_error (what : String)
  | overflow_error (what : String)
  deriving DecidableEq, Repr

/-- What a call of a library function does: it returns a raw value, throws,
stops at `assert(false)`, has undefined behaviour, or does not compile
(`integer_ops` has no `Overflow::Clamp` specialisation). -/
inductive Outcome where
  | ret (n : Int)
  | throw (e : Exception)
  | assert_fail
  | undefined
  | ill_formed
  deriving DecidableEq, Repr

/-- Sequencing of two calls: the second runs on the value the first returns. -/
def Outcome.bind (o : Outcome) (f : Int → Outcome) : Outcome :=
  match o with
  | Outcome.ret n => f n
  | other => other

/-! ## `integer_ops<T, sign, bits, Overflow::Wrap>` -/

/-- The header's `Wrap` `add`: `repr(unsigned_repr(a) + unsigned_repr(b))`. -/
def Wrap.add (sign : Sign) (bits : Nat) (a b : Int) : Option Int :=
  let repr := int_repr sign bits
  let unsigned_repr := int_repr Sign.Unsigned bits
  (Val.add ⟨unsigned_repr, convert unsigned_repr a⟩
      ⟨unsigned_repr, convert unsigned_repr b⟩).map (fun r => convert repr r.v)

/-- The header's `Wrap` `sub`: `repr(unsigned_repr(a) - unsigned_repr(b))`. -/
def Wrap.sub (sign : Sign) (bits : Nat) (a b : Int) : Option Int :=
  let repr := int_repr sign bits
  let unsigned_repr := int_repr Sign.Unsigned bits
  (Val.sub ⟨unsigned_repr, convert unsigned_repr a⟩
      ⟨unsigned_repr, convert unsigned_repr b⟩).map (fun r => convert repr r.v)

/-- The header's `Wrap` `div`: `a/b` on `repr` operands, returned as `repr`. -/
def Wrap.div (sign : Sign) (bits : Nat) (a b : Int) : Option Int :=
  let repr := int_repr sign bits
  (Val.div ⟨repr, a⟩ ⟨repr, b⟩).map (fun r => convert repr r.v)

/-- The header's `Wrap` `mul`: `a*b` on `repr` operands, returned as `repr`. -/
def Wrap.mul (sign : Sign) (bits : Nat) (a b : Int) : Option Int :=
  let repr := int_repr sign bits
  (Val.mul ⟨repr, a⟩ ⟨repr, b⟩).map (fun r => convert repr r.v)

/-- The header's `Wrap` `shl`: `a << shift`, returned as `repr`. -/
def Wrap.shl (sign : Sign) (bits : Nat) (a : Int) (shift : Nat) : Option Int :=
  let repr := int_repr sign bits
  (Val.shl ⟨repr, a⟩ shift).map (fun r => convert repr r.v)

/-- The header's `Wrap` `shr`: `a >> shift`, returned as `repr`. -/
def Wrap.shr (sign : Sign) (bits : Nat) (a : Int) (shift : Nat) : Option Int :=
  let repr := int_repr sign bits
  (Val.shr ⟨repr, a⟩ shift).map (fun r => convert repr r.v)

/-! ## Checked-arithmetic primitives -/

/-- The compound assignment `a += b` on an lvalue of type `T`: the sum is
formed in the promoted type and converted back to `T`. -/
def add_assign (T : CType) (a b : Int) : Option Int :=
  (Val.add ⟨T, a⟩ ⟨T, b⟩).map (fun r => convert T r.v)

/-- The compound assignment `a -= b` on an lvalue of type `T`. -/
def sub_assign (T : CType) (a b : Int) : Option Int :=
  (Val.sub ⟨T, a⟩ ⟨T, b⟩).map (fun r => convert T r.v)

/-- The compound assignment `a /= b` on an lvalue of type `T`. -/
def div_assign (T : CType) (a b : Int) : Option Int :=
  (Val.div ⟨T, a⟩ ⟨T, b⟩).map (fun r => convert T r.v)

/-- The compound assignment `a *= b` on an lvalue of type `T`. -/
def mul_assign (T : CType) (a b : Int) : Option Int :=
  (Val.mul ⟨T, a⟩ ⟨T, b⟩).map (fun r => convert T r.v)

/-- The compound assignment `a <<= b` on an lvalue of type `T`. -/
def shl_assign (T : CType) (a : Int) (b : Nat) : Option Int :=
  (Val.shl ⟨T, a⟩ b).map (fun r => convert T r.v)

/-- The compound assignment `a >>= b` on an lvalue of type `T`. -/
def shr_assign (T : CType) (a : Int) (b : Nat) : Option Int :=
  (Val.shr ⟨T, a⟩ b).map (fun r => convert T r.v)

/-- The header's `try_add<T, L>(T& a, T b)`.  The result pairs the returned
`Error` with the final value of the accumulator `a`; `none` is undefined
behaviour (signed overflow in one of the native expressions). -/
def try_add (T : CType) (L : Limits) (a b : Int) : Option (Error × Int) :=
  if Val.lt ⟨T, b⟩ Val.zero then
    match Val.sub ⟨L.limit_type, L.min⟩ ⟨T, b⟩ with
    | none => none
    | some d =>
      if Val.gt d ⟨T, a⟩ then some (Error.Underflow, a)
      else (add_assign T a b).map (fun r => (Error.None, r))
  else
    match Val.sub ⟨L.limit_type, L.max⟩ ⟨T, b⟩ with
    | none => none
    | some d =>
      if Val.lt d ⟨T, a⟩ then some (Error.Overflow, a)
      else (add_assign T a b).map (fun r => (Error.None, r))

/-- The header's `try_sub<T, L>(T& a, T b)`. -/
def try_sub (T : CType) (L : Limits) (a b : Int) : Option (Error × Int) :=
  if Val.lt ⟨T, b⟩ Val.zero then
    match Val.add ⟨L.limit_type, L.max⟩ ⟨T, b⟩ with
    | none => none
    | some d =>
      if Val.lt d ⟨T, a⟩ then some (Error.Overflow, a)
      else (sub_assign T a b).map (fun r => (Error.None, r))
  else
    match Val.add ⟨L.limit_type, L.min⟩ ⟨T, b⟩ with
    | none => none
    | some d =>
      if Val.gt d ⟨T, a⟩ then some (Error.Underflow, a)
      else (sub_assign T a b).map (fun r => (Error.None, r))

/-- The header's `try_div<T, L>(T& a, T b)`. -/
def try_div (T : CType) (_L : Limits) (a b : Int) : Option (Error × Int) :=
  if Val.eq ⟨T, b⟩ Val.zero then some (Error.DivisionByZero, a)
  else (div_assign T a b).map (fun r => (Error.None, r))

/-- The header's `try_mul<T, L>(T& a, T b)`.  For `b == 0` the accumulator
is assigned the literal `0`. -/
def try_mul (T : CType) (L : Limits) (a b : Int) : Option (Error × Int) :=
  if Val.eq ⟨T, b⟩ Val.zero then some (Error.None, convert T 0)
  else
    match Val.div ⟨L.limit_type, L.max⟩ ⟨T, b⟩ with
    | none => none
    | some q =>
      if Val.lt q ⟨T, a⟩ then some (Error.Overflow, a)
      else (mul_assign T a b).map (fun r => (Error.None, r))

/-- The header's `try_shl<T, L>(T& a, Bits b)`: no check, `a <<= b`. -/
def try_shl (T : CType) (_L : Limits) (a : Int) (b : Nat) : Option (Error × Int) :=
  (shl_assign T a b).map (fun r => (Error.None, r))

/-- The header's `try_shr<T, L>(T& a, Bits b)`: no check, `a >>= b`. -/
def try_shr (T : CType) (_L : Limits) (a : Int) (b : Nat) : Option (Error × Int) :=
  (shr_assign T a b).map (fun r => (Error.None, r))

/-! ## `integer_ops<T, sign, bits, Overflow::Throw>` -/

/-- The `switch` shared by `add`, `sub`, `mul`, `shl` and `shr` of the
`Throw` specialisation; `op` is the text passed to the exception. -/
def Throw.switch (op : String) (r : Option (Error × Int)) : Outcome :=
  match r with
  | none => Outcome.undefined
  | some (Error.None, a) => Outcome.ret a
  | some (Error.Underflow, _) => Outcome.throw (Exception.underflow_error op)
  | some (Error.Overflow, _) => Outcome.throw (Exception.overflow_error op)
  | some (Error.DivisionByZero, _) => Outcome.assert_fail

/-- The header's `Throw` `add`. -/
def Throw.add (sign : Sign) (bits : Nat) (a b : Int) : Outcome :=
  Throw.switch "add" (try_add (int_repr sign bits) (portable_limits bits sign) a b)

/-- The header's `Throw` `sub`. -/
def Throw.sub (sign : Sign) (bits : Nat) (a b : Int) : Outcome :=
  Throw.switch "sub" (try_sub (int_repr sign bits) (portable_limits bits sign) a b)

/-- The header's `Throw` `div`; its `switch` asserts on `Underflow` and
`Overflow` and throws `std::underflow_error("division by zero")` on
`DivisionByZero`. -/
def Throw.div (sign : Sign) (bits : Nat) (a b : Int) : Outcome :=
  match try_div (int_repr sign bits) (portable_limits bits sign) a b with
  | none => Outcome.undefined
  | some (Error.None, a) => Outcome.ret a
  | some (Error.Underflow, _) => Outcome.assert_fail
  | some (Error.Overflow, _) => Outcome.assert_fail
  | some (Error.DivisionByZero, _) =>
      Outcome.throw (Exception.underflow_error "division by zero")

/-- The header's `Throw` `mul`. -/
def Throw.mul (sign : Sign) (bits : Nat) (a b : Int) : Outcome :=
  Throw.switch "mul" (try_mul (int_repr sign bits) (portable_limits bits sign) a b)

/-- The header's `Throw` `shl`. -/
def Throw.shl (sign : Sign) (bits : Nat) (a : Int) (b : Nat) : Outcome :=
  Throw.switch "shl" (try_shl (int_repr sign bits) (portable_limits bits sign) a b)

/-- The header's `Throw` `shr`. -/
def Throw.shr (sign : Sign) (bits : Nat) (a : Int) (b : Nat) : Outcome :=
  Throw.switch "shr" (try_shr (int_repr sign bits) (portable_limits bits sign) a b)

/-! ## `strict_int<T, sign, bits, overflow>` -/

/-- The template arguments that tell one `strict_int` type from another. -/
structure StrictIntType where
  sign : Sign
  bits : Nat
  overflow : Overflow
  deriving DecidableEq, Repr

/-- The member type `repr` of a `strict_int` type. -/
def StrictIntType.repr (T : StrictIntType) : CType := int_repr T.sign T.bits

/-- The header's `size_bits`: `sizeof(std::size_t)*8`. -/
def size_bits : Nat := 8 * 8
/-- The header's `pointer_bits`: `sizeof(void*)*8`. -/
def pointer_bits : Nat := 8 * 8

/-- The header's `i8`. -/
def i8 : StrictIntType := ⟨Sign.Signed, 8, Overflow.Wrap⟩
/-- The header's `i16`. -/
def i16 : StrictIntType := ⟨Sign.Signed, 16, Overflow.Wrap⟩
/-- The header's `i32`. -/
def i32 : StrictIntType := ⟨Sign.Signed, 32, Overflow.Wrap⟩
/-- The header's `i64`. -/
def i64 : StrictIntType := ⟨Sign.Signed, 64, Overflow.Wrap⟩
/-- The header's `u8`. -/
def u8 : StrictIntType := ⟨Sign.Unsigned, 8, Overflow.Wrap⟩
/-- The header's `u16`. -/
def u16 : StrictIntType := ⟨Sign.Unsigned, 16, Overflow.Wrap⟩
/-- The header's `u32`. -/
def u32 : StrictIntType := ⟨Sign.Unsigned, 32, Overflow.Wrap⟩
/-- The header's `u64`. -/
def u64 : StrictIntType := ⟨Sign.Unsigned, 64, Overflow.Wrap⟩
/-- The header's `isize`. -/
def isize : StrictIntType := ⟨Sign.Signed, size_bits, Overflow.Throw⟩
/-- The header's `usize`. -/
def usize : StrictIntType := ⟨Sign.Unsigned, size_bits, Overflow.Throw⟩
/-- The header's `iptr`. -/
def iptr : StrictIntType := ⟨Sign.Signed, pointer_bits, Overflow.Throw⟩
/-- The header's `uptr`. -/
def uptr : StrictIntType := ⟨Sign.Unsigned, pointer_bits, Overflow.Throw⟩
/-- The type `throwing_i32` declared in `test.cpp`. -/
def throwing_i32 : StrictIntType := ⟨Sign.Signed, 32, Overflow.Throw⟩

/-- The raw value of `T::max()`, that is `T{portable_limits<bits, sign>::max()}`:
the limit converted to `repr`.  For the signed 8, 16 and 32 bit types the
limit lies outside `repr` and the brace initialisation is a narrowing
conversion; the model gives the value integral conversion produces. -/
def StrictIntType.max (T : StrictIntType) : Int :=
  convert T.repr (portable_limits T.bits T.sign).max

/-- The raw value of `T::min()`, that is `T{portable_limits<bits, sign>::min()}`. -/
def StrictIntType.min (T : StrictIntType) : Int :=
  convert T.repr (portable_limits T.bits T.sign).min

/-- The header's `strict_int::operator+`: `T{ops::add(n_, other.n_)}`. -/
def operator_add (T : StrictIntType) (a b : Int) : Outcome :=
  match T.overflow with
  | Overflow.Wrap =>
      match Wrap.add T.sign T.bits a b with
      | some r => Outcome.ret r
      | none => Outcome.undefined
  | Overflow.Throw => Throw.add T.sign T.bits a b
  | Overflow.Clamp => Outcome.ill_formed

/-- The header's `strict_int::operator-` (binary): `T{ops::sub(n_, other.n_)}`. -/
def operator_sub (T : StrictIntType) (a b : Int) : Outcome :=
  match T.overflow with
  | Overflow.Wrap =>
      match Wrap.sub T.sign T.bits a b with
      | some r => Outcome.ret r
      | none => Outcome.undefined
  | Overflow.Throw => Throw.sub T.sign T.bits a b
  | Overflow.Clamp => Outcome.ill_formed

/-- The header's `strict_int::operator/`: `T{ops::div(n_, other.n_)}`. -/
def operator_div (T : StrictIntType) (a b : Int) : Outcome :=
  match T.overflow with
  | Overflow.Wrap =>
      match Wrap.div T.sign T.bits a b with
      | some r => Outcome.ret r
      | none => Outcome.undefined
  | Overflow.Throw => Throw.div T.sign T.bits a b
  | Overflow.Clamp => Outcome.ill_formed

/-- The header's `strict_int::operator*`: `T{ops::mul(n_, other.n_)}`. -/
def operator_mul (T : StrictIntType) (a b : Int) : Outcome :=
  match T.overflow with
  | Overflow.Wrap =>
      match Wrap.mul T.sign T.bits a b with
      | some r => Outcome.ret r
      | none => Outcome.undefined
  | Overflow.Throw => Throw.mul T.sign T.bits a b
  | Overflow.Clamp => Outcome.ill_formed

/-- The header's `strict_int::operator<<`: `T{ops::shl(n_, n)}`. -/
def operator_shl (T : StrictIntType) (a : Int) (n : Nat) : Outcome :=
  match T.overflow with
  | Overflow.Wrap =>
      match Wrap.shl T.sign T.bits a n with
      | some r => Outcome.ret r
      | none => Outcome.undefined
  | Overflow.Throw => Throw.shl T.sign T.bits a n
  | Overflow.Clamp => Outcome.ill_formed

/-- The header's `strict_int::operator>>`: `T{ops::shr(n_, n)}`. -/
def operator_shr (T : StrictIntType) (a : Int) (n : Nat) : Outcome :=
  match T.overflow with
  | Overflow.Wrap =>
      match Wrap.shr T.sign T.bits a n with
      | some r => Outcome.ret r
      | none => Outcome.undefined
  | Overflow.Throw => Throw.shr T.sign T.bits a n
  | Overflow.Clamp => Outcome.ill_formed

/-- The header's unary `strict_int::operator-`: `T{-n_}`.  The negation is the
native one, whatever the policy; its result is converted to `repr`. -/
def operator_neg (T : StrictIntType) (a : Int) : Outcome :=
  match Val.neg ⟨T.repr, a⟩ with
  | some r => Outcome.ret (convert T.repr r.v)
  | none => Outcome.undefined

/-- The header's `strict_int::operator==`: `n_ == other.n_`. -/
def operator_eq (T : StrictIntType) (a b : Int) : Bool :=
  Val.eq ⟨T.repr, a⟩ ⟨T.repr, b⟩

/-! ## Cross-type cast -/

/-- The header's `int_cast<To, From>(From from)`, on the raw value `n` of
`from`.  The comparisons are native comparisons between `From::repr` and
`To::repr`; `To(from.n_)` converts the raw value to `To::repr`. -/
def int_cast (To From : StrictIntType) (n : Int) : Outcome :=
  match To.overflow with
  | Overflow.Throw =>
      if Val.gt ⟨From.repr, n⟩ ⟨To.repr, To.max⟩ then
        Outcome.throw (Exception.overflow_error "int_cast")
      else if Val.lt ⟨From.repr, n⟩ ⟨To.repr, To.min⟩ then
        Outcome.throw (Exception.underflow_error "int_cast")
      else Outcome.ret (convert To.repr n)
  | Overflow.Clamp =>
      if Val.gt ⟨From.repr, n⟩ ⟨To.repr, To.max⟩ then Outcome.ret To.max
      else if Val.lt ⟨From.repr, n⟩ ⟨To.repr, To.min⟩ then Outcome.ret To.min
      else Outcome.ret (convert To.repr n)
  | Overflow.Wrap => Outcome.ret (convert To.repr n)

/-- The expression `int_cast<A>(int_cast<B>(x))` for `x` of type `A`. -/
def round_trip (A B : StrictIntType) (x : Int) : Outcome :=
  (int_cast B A x).bind (int_cast A B)

/-- The signed reading of the low `w` bits of `x`, in the words of the
specification: keep `x` modulo `2 ^ w` and read the top bit as the sign. -/
def low_bits_signed (w : Nat) (x : Int) : Int :=
  let u := x % pow2 w
  if u < pow2 (w - 1) then u else u - pow2 w

/-- The logical minimum of a (signedness, bit-width) pair, in the words of the
specification: `0` for unsigned, `-2^(bits-1)` for signed. -/
def LogicalLimits_min (sign : Sign) (bits : Nat) : Int :=
  match sign with
  | Sign.Unsigned => 0
  | Sign.Signed => -(2 ^ (bits - 1))

/-- The logical maximum of a (signedness, bit-width) pair, in the words of the
specification: `2^bits - 1` for unsigned, `2^(bits-1) - 1` for signed. -/
def LogicalLimits_max (sign : Sign) (bits : Nat) : Int :=
  match sign with
  | Sign.Unsigned => 2 ^ bits - 1
  | Sign.Signed => 2 ^ (bits - 1) - 1

/-- The outcome of a checked operation in the words of the specification:
with exact result `x`, limits `min` and `max` and accumulator `a`, the
operation fails with Underflow when `x < min`, with Overflow when `x > max`,
and otherwise stores `x`. -/
def checked_exact (min max x a : Int) : Error × Int :=
  if x < min then (Error.Underflow, a)
  else if max < x then (Error.Overflow, a)
  else (Error.None, x)

/-! ## Properties -/

theorem pow2_pos (n : Nat) : 0 < pow2 n := by
  unfold pow2
  exact_mod_cast Nat.pos_pow_of_pos n (by decide)

theorem pow2_succ_pred (n : Nat) (h : 0 < n) : pow2 n = 2 * pow2 (n - 1) := by
  unfold pow2
  obtain ⟨k, rfl⟩ : ∃ k, n = k + 1 := ⟨n - 1, by omega⟩
  simp only [Nat.add_sub_cancel]
  push_cast
  ring

/-- Integral conversion lands in the range of the destination type. -/
theorem convert_range (t : CType) (x : Int) (h : 0 < t.bits) :
    t.lo ≤ convert t x ∧ convert t x ≤ t.hi := by
  have hp := pow2_pos t.bits
  have h2 := pow2_succ_pred t.bits h
  unfold convert CType.lo CType.hi
  cases t.sign with
  | Unsigned =>
    simp only
    have h0 := Int.emod_nonneg x (ne_of_gt hp)
    have h1 := Int.emod_lt_of_pos x hp
    omega
  | Signed =>
    simp only
    have h0 := Int.emod_nonneg (x + pow2 (t.bits - 1)) (ne_of_gt hp)
    have h1 := Int.emod_lt_of_pos (x + pow2 (t.bits - 1)) hp
    omega

/-- Integral conversion keeps the value modulo `2 ^ bits`. -/
theorem convert_congr (t : CType) (x : Int) :
    (convert t x - x) % pow2 t.bits = 0 := by
  unfold convert
  cases t.sign with
  | Unsigned =>
    simp only
    have := Int.emod_add_ediv x (pow2 t.bits)
    have e : x % pow2 t.bits - x = pow2 t.bits * (-(x / pow2 t.bits)) := by
      linarith
    rw [e]
    exact Int.mul_emod_right _ _
  | Signed =>
    simp only
    have := Int.emod_add_ediv (x + pow2 (t.bits - 1)) (pow2 t.bits)
    have e : (x + pow2 (t.bits - 1)) % pow2 t.bits - pow2 (t.bits - 1) - x
        = pow2 t.bits * (-((x + pow2 (t.bits - 1)) / pow2 t.bits)) := by
      linarith
    rw [e]
    exact Int.mul_emod_right _ _

/-- Conversion to a 32-bit signed type is the signed reading of the low 32
bits. -/
theorem convert_signed32 (x : Int) :
    convert ⟨Sign.Signed, 32⟩ x = low_bits_signed 32 x := by
  unfold convert low_bits_signed
  simp only
  have e31 : pow2 (32 - 1) = 2147483648 := by decide
  have e32 : pow2 32 = 4294967296 := by decide
  rw [e31, e32]
  split <;> omega

/-- Conversion to the type of a value already in its range changes nothing. -/
theorem convert_id (t : CType) (x : Int) (hb : 0 < t.bits)
    (h : t.lo ≤ x ∧ x ≤ t.hi) : convert t x = x := by
  have hp := pow2_pos t.bits
  have h2 := pow2_succ_pred t.bits hb
  obtain ⟨h0, h1⟩ := h
  unfold CType.lo at h0
  unfold CType.hi at h1
  unfold convert
  cases hs : t.sign with
  | Unsigned =>
    simp only [hs] at h0 h1 ⊢
    exact Int.emod_eq_of_lt h0 (by omega)
  | Signed =>
    simp only [hs] at h0 h1 ⊢
    rw [Int.emod_eq_of_lt (by omega) (by omega)]
    omega

/-- Values congruent modulo `2 ^ bits` convert to the same value. -/
theorem convert_eq_of_congr (t : CType) (x y : Int)
    (h : (x - y) % pow2 t.bits = 0) : convert t x = convert t y := by
  have hxy : x % pow2 t.bits = y % pow2 t.bits :=
    Int.emod_eq_emod_iff_emod_sub_eq_zero.mpr h
  unfold convert
  cases t.sign with
  | Unsigned => simpa using hxy
  | Signed =>
    simp only
    have : (x + pow2 (t.bits - 1)) % pow2 t.bits
        = (y + pow2 (t.bits - 1)) % pow2 t.bits := by
      rw [Int.add_emod, hxy, ← Int.add_emod]
    rw [this]

/-- The `Wrap` addition is the exact sum converted to `repr`. -/
theorem wrap_add_eq (s : Sign) (w : Nat) (a b : Int)
    (hw : w = 8 ∨ w = 16 ∨ w = 32 ∨ w = 64) :
    Wrap.add s w a b = some (convert ⟨s, w⟩ (a + b)) := by
  rcases hw with rfl | rfl | rfl | rfl <;> cases s <;>
    simp [Wrap.add, Val.add, common, promote, arith, convert, int_repr, CType.int,
      CType.lo, CType.hi, pow2] <;> omega

/-- The `Wrap` subtraction is the exact difference converted to `repr`. -/
theorem wrap_sub_eq (s : Sign) (w : Nat) (a b : Int)
    (hw : w = 8 ∨ w = 16 ∨ w = 32 ∨ w = 64) :
    Wrap.sub s w a b = some (convert ⟨s, w⟩ (a - b)) := by
  rcases hw with rfl | rfl | rfl | rfl <;> cases s <;>
    simp [Wrap.sub, Val.sub, common, promote, arith, convert, int_repr, CType.int,
      CType.lo, CType.hi, pow2] <;> omega

/-- A result built on the `Error::None` path carries `Error::None`. -/
theorem none_path_error (o : Option Int) (e : Error) (r : Int)
    (h : o.map (fun x => (Error.None, x)) = some (e, r)) : e = Error.None := by
  cases o with
  | none => simp at h
  | some x =>
    simp only [Option.map_some', Option.some.injEq, Prod.mk.injEq] at h
    exact h.1.symm

/-- The storage range of `repr` is the logical range of the specification. -/
theorem repr_range_eq (sign : Sign) (bits : Nat) :
    (int_repr sign bits).lo = LogicalLimits_min sign bits ∧
    (int_repr sign bits).hi = LogicalLimits_max sign bits := by
  cases sign <;>
    simp [int_repr, CType.lo, CType.hi, LogicalLimits_min, LogicalLimits_max, pow2]

/-- A value stored by a compound assignment is a value of the type. -/
theorem assigned_range (T : CType) (o : Option Val) (e : Error) (r : Int)
    (hb : 0 < T.bits)
    (h : (o.map (fun v => convert T v.v)).map (fun x => (Error.None, x)) = some (e, r)) :
    T.lo ≤ r ∧ r ≤ T.hi := by
  cases o with
  | none => simp at h
  | some v =>
    simp only [Option.map_some', Option.some.injEq, Prod.mk.injEq] at h
    rw [← h.2]
    exact convert_range T v.v hb

/-- The `switch` of the `Throw` operations returns only what the primitive
stored on its `Error::None` path. -/
theorem switch_ret (op : String) (res : Option (Error × Int)) (r : Int)
    (h : Throw.switch op res = Outcome.ret r) : res = some (Error.None, r) := by
  unfold Throw.switch at h
  split at h <;> simp_all

/-- What `try_add` stores is a value of the operand type. -/
theorem try_add_range (T : CType) (L : Limits) (a b r : Int) (hb : 0 < T.bits)
    (h : try_add T L a b = some (Error.None, r)) : T.lo ≤ r ∧ r ≤ T.hi := by
  unfold try_add at h
  split at h <;> split at h
  · simp at h
  · split at h
    · simp at h
    · exact assigned_range T _ _ r hb h
  · simp at h
  · split at h
    · simp at h
    · exact assigned_range T _ _ r hb h

/-- What `try_sub` stores is a value of the operand type. -/
theorem try_sub_range (T : CType) (L : Limits) (a b r : Int) (hb : 0 < T.bits)
    (h : try_sub T L a b = some (Error.None, r)) : T.lo ≤ r ∧ r ≤ T.hi := by
  unfold try_sub at h
  split at h <;> split at h
  · simp at h
  · split at h
    · simp at h
    · exact assigned_range T _ _ r hb h
  · simp at h
  · split at h
    · simp at h
    · exact assigned_range T _ _ r hb h

/-- What `try_mul` stores is a value of the operand type. -/
theorem try_mul_range (T : CType) (L : Limits) (a b r : Int) (hb : 0 < T.bits)
    (h : try_mul T L a b = some (Error.None, r)) : T.lo ≤ r ∧ r ≤ T.hi := by
  unfold try_mul at h
  split at h
  · simp only [Option.some.injEq, Prod.mk.injEq, true_and] at h
    rw [← h]
    exact convert_range T 0 hb
  · split at h
    · simp at h
    · split at h
      · simp at h
      · exact assigned_range T _ _ r hb h

/-- What `try_div` stores is a value of the operand type. -/
theorem try_div_range (T : CType) (L : Limits) (a b r : Int) (hb : 0 < T.bits)
    (h : try_div T L a b = some (Error.None, r)) : T.lo ≤ r ∧ r ≤ T.hi := by
  unfold try_div at h
  split at h
  · simp at h
  · exact assigned_range T _ _ r hb h

/-- A value that fits both operand types fits their common type. -/
theorem fits_common (t u : CType) (x : Int)
    (ht : t.bits = 8 ∨ t.bits = 16 ∨ t.bits = 32 ∨ t.bits = 64)
    (hu : u.bits = 8 ∨ u.bits = 16 ∨ u.bits = 32 ∨ u.bits = 64)
    (hx : t.lo ≤ x ∧ x ≤ t.hi) (hy : u.lo ≤ x ∧ x ≤ u.hi) :
    (common t u).lo ≤ x ∧ x ≤ (common t u).hi ∧ 0 < (common t u).bits := by
  obtain ⟨ts, tb⟩ := t
  obtain ⟨us, ub⟩ := u
  simp only at ht hu
  rcases ht with rfl | rfl | rfl | rfl <;> rcases hu with rfl | rfl | rfl | rfl <;>
    cases ts <;> cases us <;>
    simp [common, promote, CType.int, CType.lo, CType.hi, pow2] at hx hy ⊢ <;> omega

/-- The common type of two standard-width types has a standard width. -/
theorem common_std (t u : CType)
    (ht : t.bits = 8 ∨ t.bits = 16 ∨ t.bits = 32 ∨ t.bits = 64)
    (hu : u.bits = 8 ∨ u.bits = 16 ∨ u.bits = 32 ∨ u.bits = 64) :
    (common t u).bits = 8 ∨ (common t u).bits = 16 ∨ (common t u).bits = 32 ∨
      (common t u).bits = 64 := by
  obtain ⟨ts, tb⟩ := t
  obtain ⟨us, ub⟩ := u
  simp only at ht hu
  rcases ht with rfl | rfl | rfl | rfl <;> rcases hu with rfl | rfl | rfl | rfl <;>
    cases ts <;> cases us <;> simp [common, promote, CType.int]

/-- A value of a type, and the literal `0`, fit the common type with `int`. -/
theorem fits_common_int (t : CType) (x : Int)
    (ht : t.bits = 8 ∨ t.bits = 16 ∨ t.bits = 32 ∨ t.bits = 64)
    (hx : t.lo ≤ x ∧ x ≤ t.hi) :
    ((common t CType.int).lo ≤ x ∧ x ≤ (common t CType.int).hi) ∧
    ((common t CType.int).lo ≤ 0 ∧ 0 ≤ (common t CType.int).hi) ∧
    0 < (common t CType.int).bits := by
  obtain ⟨ts, tb⟩ := t
  simp only at ht
  rcases ht with rfl | rfl | rfl | rfl <;> cases ts <;>
    simp [common, promote, CType.int, CType.lo, CType.hi, pow2] at hx ⊢ <;> omega

/-- Arithmetic whose exact result fits the type yields that result. -/
theorem arith_of_fits (t : CType) (x : Int) (hb : 0 < t.bits)
    (h : t.lo ≤ x ∧ x ≤ t.hi) : arith t x = some x := by
  have hc := convert_id t x hb h
  unfold arith
  unfold convert at hc
  cases hs : t.sign with
  | Unsigned =>
    simp only [hs] at hc ⊢
    rw [hc]
  | Signed =>
    simp only
    rw [if_pos h]

/-- The comparison `b < 0` of a value of type `t` with the literal `0`. -/
theorem lt_zero_exact (t : CType) (b : Int)
    (ht : t.bits = 8 ∨ t.bits = 16 ∨ t.bits = 32 ∨ t.bits = 64)
    (hb : t.lo ≤ b ∧ b ≤ t.hi) : Val.lt ⟨t, b⟩ Val.zero = decide (b < 0) := by
  obtain ⟨h1, h2, h3⟩ := fits_common_int t b ht hb
  simp only [Val.lt, Val.zero, convert_id _ b h3 h1, convert_id _ 0 h3 h2]

/-- A native comparison of two values that fit both operand types. -/
theorem val_lt_exact (t u : CType) (x y : Int)
    (ht : t.bits = 8 ∨ t.bits = 16 ∨ t.bits = 32 ∨ t.bits = 64)
    (hu : u.bits = 8 ∨ u.bits = 16 ∨ u.bits = 32 ∨ u.bits = 64)
    (hx : (t.lo ≤ x ∧ x ≤ t.hi) ∧ (u.lo ≤ x ∧ x ≤ u.hi))
    (hy : (t.lo ≤ y ∧ y ≤ t.hi) ∧ (u.lo ≤ y ∧ y ≤ u.hi)) :
    Val.lt ⟨t, x⟩ ⟨u, y⟩ = decide (x < y) := by
  obtain ⟨x1, x2, hb⟩ := fits_common t u x ht hu hx.1 hx.2
  obtain ⟨y1, y2, _⟩ := fits_common t u y ht hu hy.1 hy.2
  simp only [Val.lt, convert_id _ x hb ⟨x1, x2⟩, convert_id _ y hb ⟨y1, y2⟩]

/-- A native subtraction whose operands and exact result fit both operand
types is exact. -/
theorem val_sub_exact (t u : CType) (x y : Int)
    (ht : t.bits = 8 ∨ t.bits = 16 ∨ t.bits = 32 ∨ t.bits = 64)
    (hu : u.bits = 8 ∨ u.bits = 16 ∨ u.bits = 32 ∨ u.bits = 64)
    (hx : (t.lo ≤ x ∧ x ≤ t.hi) ∧ (u.lo ≤ x ∧ x ≤ u.hi))
    (hy : (t.lo ≤ y ∧ y ≤ t.hi) ∧ (u.lo ≤ y ∧ y ≤ u.hi))
    (hr : (t.lo ≤ x - y ∧ x - y ≤ t.hi) ∧ (u.lo ≤ x - y ∧ x - y ≤ u.hi)) :
    Val.sub ⟨t, x⟩ ⟨u, y⟩ = some ⟨common t u, x - y⟩ := by
  obtain ⟨x1, x2, hb⟩ := fits_common t u x ht hu hx.1 hx.2
  obtain ⟨y1, y2, _⟩ := fits_common t u y ht hu hy.1 hy.2
  obtain ⟨r1, r2, _⟩ := fits_common t u (x - y) ht hu hr.1 hr.2
  simp only [Val.sub]
  rw [convert_id _ x hb ⟨x1, x2⟩, convert_id _ y hb ⟨y1, y2⟩,
    arith_of_fits _ _ hb ⟨r1, r2⟩]
  rfl

/-- A native addition whose operands and exact result fit both operand types
is exact. -/
theorem val_add_exact (t u : CType) (x y : Int)
    (ht : t.bits = 8 ∨ t.bits = 16 ∨ t.bits = 32 ∨ t.bits = 64)
    (hu : u.bits = 8 ∨ u.bits = 16 ∨ u.bits = 32 ∨ u.bits = 64)
    (hx : (t.lo ≤ x ∧ x ≤ t.hi) ∧ (u.lo ≤ x ∧ x ≤ u.hi))
    (hy : (t.lo ≤ y ∧ y ≤ t.hi) ∧ (u.lo ≤ y ∧ y ≤ u.hi))
    (hr : (t.lo ≤ x + y ∧ x + y ≤ t.hi) ∧ (u.lo ≤ x + y ∧ x + y ≤ u.hi)) :
    Val.add ⟨t, x⟩ ⟨u, y⟩ = some ⟨common t u, x + y⟩ := by
  obtain ⟨x1, x2, hb⟩ := fits_common t u x ht hu hx.1 hx.2
  obtain ⟨y1, y2, _⟩ := fits_common t u y ht hu hy.1 hy.2
  obtain ⟨r1, r2, _⟩ := fits_common t u (x + y) ht hu hr.1 hr.2
  simp only [Val.add]
  rw [convert_id _ x hb ⟨x1, x2⟩, convert_id _ y hb ⟨y1, y2⟩,
    arith_of_fits _ _ hb ⟨r1, r2⟩]
  rfl

/-- The assignment `a += b` stores the exact sum when it fits the type. -/
theorem add_assign_exact (T : CType) (a b : Int)
    (hT : T.bits = 8 ∨ T.bits = 16 ∨ T.bits = 32 ∨ T.bits = 64)
    (ha : T.lo ≤ a ∧ a ≤ T.hi) (hb : T.lo ≤ b ∧ b ≤ T.hi)
    (hr : T.lo ≤ a + b ∧ a + b ≤ T.hi) : add_assign T a b = some (a + b) := by
  unfold add_assign
  rw [val_add_exact T T a b hT hT ⟨ha, ha⟩ ⟨hb, hb⟩ ⟨hr, hr⟩]
  simp only [Option.map_some']
  rw [convert_id T _ (by omega) hr]

/-- The assignment `a -= b` stores the exact difference when it fits the type. -/
theorem sub_assign_exact (T : CType) (a b : Int)
    (hT : T.bits = 8 ∨ T.bits = 16 ∨ T.bits = 32 ∨ T.bits = 64)
    (ha : T.lo ≤ a ∧ a ≤ T.hi) (hb : T.lo ≤ b ∧ b ≤ T.hi)
    (hr : T.lo ≤ a - b ∧ a - b ≤ T.hi) : sub_assign T a b = some (a - b) := by
  unfold sub_assign
  rw [val_sub_exact T T a b hT hT ⟨ha, ha⟩ ⟨hb, hb⟩ ⟨hr, hr⟩]
  simp only [Option.map_some']
  rw [convert_id T _ (by omega) hr]

/-! ## The claims -/

/-- C1: the signed portable limits.  The specification gives
`min = -2^(w-1)` and `max = 2^(w-1) - 1`; the header's two bit expressions
both evaluate to `~(1 << (w-1))` in 64 bits, so `min()` and `max()` coincide:
`-2^(w-1) - 1` for `w = 8, 16, 32` and `2^63 - 1` for `w = 64`, and
`isize::min()` is not below `isize::max()`. -/
theorem signed_limits_min_equals_max :
    portable_limits_signed_min 8 = -129 ∧ portable_limits_signed_max 8 = -129 ∧
    portable_limits_signed_min 16 = -32769 ∧ portable_limits_signed_max 16 = -32769 ∧
    portable_limits_signed_min 32 = -2147483649 ∧
    portable_limits_signed_max 32 = -2147483649 ∧
    portable_limits_signed_min 64 = 9223372036854775807 ∧
    portable_limits_signed_max 64 = 9223372036854775807 ∧
    isize.min = 9223372036854775807 ∧ isize.max = 9223372036854775807 ∧
    ¬ (isize.min < isize.max) := by
  decide

/-- C2: the unsigned portable limits.  The specification gives
`max = 2^w - 1`; the header computes `(1ULL << (w-1)) - 1`, which is
`2^(w-1) - 1`: 127 for `w = 8` and 2147483647 for `w = 32`. -/
theorem unsigned_limits_max_is_half :
    portable_limits_unsigned_min 8 = 0 ∧
    portable_limits_unsigned_max 8 = 127 ∧
    portable_limits_unsigned_max 16 = 32767 ∧
    portable_limits_unsigned_max 32 = 2147483647 ∧
    portable_limits_unsigned_max 64 = 9223372036854775807 ∧
    (portable_limits 8 Sign.Unsigned).max ≠ 255 ∧
    (portable_limits 32 Sign.Unsigned).max ≠ 4294967295 := by
  decide

/-- C3: addition under the `Throw` policy.  `isize::min()` evaluates to
`2^63 - 1`, and `isize(-1) + isize::min()` returns `2^63 - 2` where the
specification (and `detect_overflow_add` in `test.cpp`) expects an underflow
failure; for the 32-bit `throwing_i32`, whose limits are both `-2^31 - 1`,
`1 + 1` throws `overflow_error` where the specification expects `2`. -/
theorem throw_add_at_limits :
    isize.min = 9223372036854775807 ∧
    operator_add isize (-1) isize.min = Outcome.ret 9223372036854775806 ∧
    operator_add isize isize.min (-1) = Outcome.undefined ∧
    operator_add throwing_i32 1 1 =
      Outcome.throw (Exception.overflow_error "add") := by
  decide

/-- C4: subtraction under the `Throw` policy.  With `isize::min()` equal to
`2^63 - 1`, the check `L::min() + b > a` holds for `b = 0` and `a = 5`, so
`isize(5) - isize(0)` throws `underflow_error("sub")` where the
specification expects the value `5`; for `throwing_i32`, `0 - (-1)` throws
`overflow_error` where the specification expects `1`. -/
theorem throw_sub_zero_underflows :
    operator_sub isize 5 0 = Outcome.throw (Exception.underflow_error "sub") ∧
    try_sub isize.repr (portable_limits 64 Sign.Signed) 5 0
      = some (Error.Underflow, 5) ∧
    operator_sub throwing_i32 0 (-1) =
      Outcome.throw (Exception.overflow_error "sub") := by
  decide

/-- C5: division by zero.  For every operand type, limits and accumulator
`a`, `try_div(a, 0)` returns `Error::DivisionByZero` and leaves `a` alone; for
every `Throw`-policy type, `a / T(0)` returns no value: it throws, from the
`DivisionByZero` case of the switch, `std::underflow_error` with the text
"division by zero". -/
theorem div_by_zero_fails (T : StrictIntType) (R : CType) (L : Limits) (a : Int)
    (hT : T.overflow = Overflow.Throw) :
    try_div R L a 0 = some (Error.DivisionByZero, a) ∧
    operator_div T a 0 =
      Outcome.throw (Exception.underflow_error "division by zero") := by
  have key : ∀ (R : CType) (L : Limits),
      try_div R L a 0 = some (Error.DivisionByZero, a) := by
    intro R L
    simp [try_div, Val.eq, Val.zero]
  refine ⟨key R L, ?_⟩
  simp only [operator_div, hT, Throw.div, key]

theorem div_by_zero_fails_witness :
    isize.overflow = Overflow.Throw ∧
    try_div isize.repr (portable_limits 64 Sign.Signed) 5 0
      = some (Error.DivisionByZero, 5) ∧
    operator_div isize 5 0 =
      Outcome.throw (Exception.underflow_error "division by zero") :=
  ⟨rfl, div_by_zero_fails isize isize.repr (portable_limits 64 Sign.Signed) 5 rfl⟩

/-- C6: a cast to a `Wrap`-policy type never fails; its raw value is
congruent to the source value modulo `2^bits` of the destination and lies in
the destination's storage range.  A cast from `isize` to `i32` is the signed
reading of the low 32 bits: `2^32 + 1` maps to `1` and `-(2^32 + 1)` to `-1`. -/
theorem int_cast_wrap_truncates (To From : StrictIntType) (x : Int)
    (hW : To.overflow = Overflow.Wrap) (hb : 0 < To.bits) :
    (∃ r, int_cast To From x = Outcome.ret r ∧
      (r - x) % pow2 To.bits = 0 ∧ To.repr.lo ≤ r ∧ r ≤ To.repr.hi) ∧
    int_cast i32 isize x = Outcome.ret (low_bits_signed 32 x) ∧
    int_cast i32 isize 4294967297 = Outcome.ret 1 ∧
    int_cast i32 isize (-4294967297) = Outcome.ret (-1) := by
  refine ⟨⟨convert To.repr x, ?_, convert_congr To.repr x, convert_range To.repr x hb⟩,
    ?_, by decide, by decide⟩
  · simp only [int_cast, hW]
  · simp only [int_cast, i32, StrictIntType.repr, int_repr]
    rw [convert_signed32]

theorem int_cast_wrap_truncates_witness :
    i32.overflow = Overflow.Wrap ∧ 0 < i32.bits ∧
    ((∃ r, int_cast i32 isize 4294967297 = Outcome.ret r ∧
      (r - 4294967297) % pow2 i32.bits = 0 ∧ i32.repr.lo ≤ r ∧ r ≤ i32.repr.hi) ∧
    int_cast i32 isize 4294967297 = Outcome.ret (low_bits_signed 32 4294967297) ∧
    int_cast i32 isize 4294967297 = Outcome.ret 1 ∧
    int_cast i32 isize (-4294967297) = Outcome.ret (-1)) :=
  ⟨rfl, by decide, int_cast_wrap_truncates i32 isize 4294967297 rfl (by decide)⟩

/-- C7: a cast to a `Throw`-policy type.  `int_cast<usize>(isize(-1))`
compares `-1` with `usize::max()` in `unsigned long`, where `-1` reads as
`2^64 - 1`, and throws `overflow_error` where the specification expects
Underflow; `int_cast<isize>(isize(5))` finds `5 < isize::min() = 2^63 - 1`
and throws `underflow_error` where the specification expects the value `5`. -/
theorem int_cast_throw_in_range_fails :
    int_cast usize isize (-1) =
      Outcome.throw (Exception.overflow_error "int_cast") ∧
    int_cast isize isize 5 =
      Outcome.throw (Exception.underflow_error "int_cast") ∧
    int_cast isize i32 5 =
      Outcome.throw (Exception.underflow_error "int_cast") := by
  decide

/-- C8: the wrap-around identity `a + (T::max() - a) + T(1) == T::min()`.
For `i64` and `a = 0` the left side is `-2^63` while `i64::min()` is
`2^63 - 1`; for `u8` and `a = 3` the left side is `128` while `u8::min()` is
`0`; the comparison is false in both. -/
theorem wrap_boundary_identity_fails :
    ((operator_sub i64 i64.max 0).bind (operator_add i64 0)).bind
        (fun s => operator_add i64 s 1) = Outcome.ret (-9223372036854775808) ∧
    i64.min = 9223372036854775807 ∧
    operator_eq i64 (-9223372036854775808) i64.min = false ∧
    ((operator_sub u8 u8.max 3).bind (operator_add u8 3)).bind
        (fun s => operator_add u8 s 1) = Outcome.ret 128 ∧
    u8.min = 0 ∧
    operator_eq u8 128 u8.min = false := by
  decide

/-- C9: a cast to a `Clamp`-policy type.  Into an unsigned 64-bit `Clamp`
type, `isize(-1)` compares as `2^64 - 1 > max` and the cast returns
`max = 2^63 - 1` where the specification expects `min = 0`; into a signed
64-bit `Clamp` type, `isize(5)` is below `min() = 2^63 - 1` and the cast
returns `2^63 - 1` where the specification expects `5`. -/
theorem int_cast_clamp_wrong_bound :
    int_cast ⟨Sign.Unsigned, 64, Overflow.Clamp⟩ isize (-1)
      = Outcome.ret 9223372036854775807 ∧
    StrictIntType.min ⟨Sign.Unsigned, 64, Overflow.Clamp⟩ = 0 ∧
    int_cast ⟨Sign.Signed, 64, Overflow.Clamp⟩ isize 5
      = Outcome.ret 9223372036854775807 := by
  decide

/-- C10: the round trip `int_cast<A>(int_cast<B>(x))`.  With
`A = throwing_i32`, `B = isize` and `x = 5`, the first cast already throws
`underflow_error`, because `isize::min()` is `2^63 - 1`; the specification
expects both casts to succeed and the result to be `5`. -/
theorem round_trip_through_isize_fails :
    int_cast isize throwing_i32 5 =
      Outcome.throw (Exception.underflow_error "int_cast") ∧
    round_trip throwing_i32 isize 5 =
      Outcome.throw (Exception.underflow_error "int_cast") := by
  decide

/-- C11: the invariant of the `Throw`-policy types.  Whenever one of `+`, `-`,
`*`, `/`, `<<`, `>>` or unary `-` returns a value, its raw value lies within
the logical range of the type as the specification defines it
(`[-2^(bits-1), 2^(bits-1) - 1]` signed, `[0, 2^bits - 1]` unsigned). -/
theorem throw_result_within_logical_limits (T : StrictIntType) (a b : Int) (n : Nat)
    (r : Int) (hT : T.overflow = Overflow.Throw) (hb : 0 < T.bits)
    (h : operator_add T a b = Outcome.ret r ∨ operator_sub T a b = Outcome.ret r ∨
      operator_mul T a b = Outcome.ret r ∨ operator_div T a b = Outcome.ret r ∨
      operator_shl T a n = Outcome.ret r ∨ operator_shr T a n = Outcome.ret r ∨
      operator_neg T a = Outcome.ret r) :
    LogicalLimits_min T.sign T.bits ≤ r ∧ r ≤ LogicalLimits_max T.sign T.bits := by
  have hb2 : 0 < (int_repr T.sign T.bits).bits := hb
  rw [← (repr_range_eq T.sign T.bits).1, ← (repr_range_eq T.sign T.bits).2]
  rcases h with h | h | h | h | h | h | h
  · simp only [operator_add, hT, Throw.add] at h
    exact try_add_range _ _ a b r hb2 (switch_ret _ _ r h)
  · simp only [operator_sub, hT, Throw.sub] at h
    exact try_sub_range _ _ a b r hb2 (switch_ret _ _ r h)
  · simp only [operator_mul, hT, Throw.mul] at h
    exact try_mul_range _ _ a b r hb2 (switch_ret _ _ r h)
  · simp only [operator_div, hT, Throw.div] at h
    split at h <;> try simp at h
    rename_i a2 heq
    subst h
    exact try_div_range _ _ a b _ hb2 heq
  · simp only [operator_shl, hT, Throw.shl, try_shl, shl_assign] at h
    exact assigned_range _ _ _ r hb2 (switch_ret _ _ r h)
  · simp only [operator_shr, hT, Throw.shr, try_shr, shr_assign] at h
    exact assigned_range _ _ _ r hb2 (switch_ret _ _ r h)
  · unfold operator_neg at h
    split at h
    · simp only [Outcome.ret.injEq] at h
      rw [← h]
      exact convert_range _ _ hb2
    · simp at h

theorem throw_result_within_logical_limits_witness :
    usize.overflow = Overflow.Throw ∧ 0 < usize.bits ∧
    operator_shl usize 1 63 = Outcome.ret 9223372036854775808 ∧
    (LogicalLimits_min usize.sign usize.bits ≤ 9223372036854775808 ∧
      9223372036854775808 ≤ LogicalLimits_max usize.sign usize.bits) :=
  ⟨rfl, by decide, by decide,
    throw_result_within_logical_limits usize 1 0 63 9223372036854775808 rfl (by decide)
      (Or.inr (Or.inr (Or.inr (Or.inr (Or.inl (by decide))))))⟩

/-- C12: for every `Wrap`-policy type of 8, 16, 32 or 64 bits and all
`a`, `b`, the operators `a + b` and `a - b` return a value (they never fail):
the value of the type's storage range congruent to the exact sum, respectively
difference, modulo `2^bits`. -/
theorem wrap_add_sub_modular (T : StrictIntType) (a b : Int)
    (hT : T.overflow = Overflow.Wrap)
    (hw : T.bits = 8 ∨ T.bits = 16 ∨ T.bits = 32 ∨ T.bits = 64) :
    (∃ r, operator_add T a b = Outcome.ret r ∧
      (r - (a + b)) % pow2 T.bits = 0 ∧ T.repr.lo ≤ r ∧ r ≤ T.repr.hi) ∧
    (∃ r, operator_sub T a b = Outcome.ret r ∧
      (r - (a - b)) % pow2 T.bits = 0 ∧ T.repr.lo ≤ r ∧ r ≤ T.repr.hi) := by
  have hb : 0 < T.repr.bits := by
    show 0 < T.bits
    omega
  refine ⟨⟨convert T.repr (a + b), ?_, convert_congr T.repr (a + b),
      convert_range T.repr (a + b) hb⟩,
    ⟨convert T.repr (a - b), ?_, convert_congr T.repr (a - b),
      convert_range T.repr (a - b) hb⟩⟩
  · simp only [operator_add, hT, wrap_add_eq T.sign T.bits a b hw]
    rfl
  · simp only [operator_sub, hT, wrap_sub_eq T.sign T.bits a b hw]
    rfl

theorem wrap_add_sub_modular_witness :
    i32.overflow = Overflow.Wrap ∧
    (i32.bits = 8 ∨ i32.bits = 16 ∨ i32.bits = 32 ∨ i32.bits = 64) ∧
    ((∃ r, operator_add i32 2147483647 1 = Outcome.ret r ∧
      (r - (2147483647 + 1)) % pow2 i32.bits = 0 ∧ i32.repr.lo ≤ r ∧ r ≤ i32.repr.hi) ∧
    (∃ r, operator_sub i32 2147483647 1 = Outcome.ret r ∧
      (r - (2147483647 - 1)) % pow2 i32.bits = 0 ∧ i32.repr.lo ≤ r ∧ r ≤ i32.repr.hi)) :=
  ⟨rfl, by decide, wrap_add_sub_modular i32 2147483647 1 rfl (by decide)⟩

/-- C13: unary negation against subtraction from zero.  The header's unary
`operator-` is the native `-n_` and never consults the policy: `-usize(1)`
returns `usize(2^64 - 1)`, while `usize(0) - usize(1)` throws
`underflow_error("sub")`; `-isize(5)` returns `isize(-5)`, while
`isize(0) - isize(5)` runs into the signed overflow of `L::min() + b`. -/
theorem neg_differs_from_zero_minus :
    operator_neg usize 1 = Outcome.ret 18446744073709551615 ∧
    operator_sub usize 0 1 = Outcome.throw (Exception.underflow_error "sub") ∧
    operator_neg isize 5 = Outcome.ret (-5) ∧
    operator_sub isize 0 5 = Outcome.undefined := by
  decide

/-- C14: commutativity of addition under the `Throw` policy.
`usize(0) + usize(2^63)` returns `usize(2^63)`, because `L::max() - b` wraps
around in `unsigned long`, while `usize(2^63) + usize(0)` throws
`overflow_error("add")`; for `isize`, `-1 + 1` returns `0` while `1 + (-1)`
runs into the signed overflow of `L::min() - b`. -/
theorem throw_add_not_commutative :
    operator_add usize 0 9223372036854775808 = Outcome.ret 9223372036854775808 ∧
    operator_add usize 9223372036854775808 0 =
      Outcome.throw (Exception.overflow_error "add") ∧
    operator_add isize (-1) 1 = Outcome.ret 0 ∧
    operator_add isize 1 (-1) = Outcome.undefined := by
  decide

/-- C15: `try_mul` at `a = min`, `b = -1`.  With the limits of the
specification for 8 bits (`min = -128`, `max = 127`) the check
`L::max() / b < a` is `-127 < -128`, false, and `try_mul` returns
`Error::None` with the accumulator `-128`; for 32 and 64 bits the product
overflows the native type instead of being reported.  The 8-bit
`Throw`-policy product `T(-128) * T(-1)` returns `T(-128)`. -/
theorem try_mul_min_times_minus_one :
    try_mul ⟨Sign.Signed, 8⟩ ⟨CType.int_fast64_t, -128, 127⟩ (-128) (-1)
      = some (Error.None, -128) ∧
    try_mul ⟨Sign.Signed, 32⟩ ⟨CType.int_fast64_t, -2147483648, 2147483647⟩
      (-2147483648) (-1) = none ∧
    try_mul ⟨Sign.Signed, 64⟩
      ⟨CType.int_fast64_t, -9223372036854775808, 9223372036854775807⟩
      (-9223372036854775808) (-1) = none ∧
    operator_mul ⟨Sign.Signed, 8, Overflow.Throw⟩ (-128) (-1) = Outcome.ret (-128) ∧
    operator_mul isize (-9223372036854775808) (-1) = Outcome.undefined := by
  decide

/-- C16: `Wrap`-policy division of the minimum by `-1`.  For `i8` and `i16`
the quotient is formed in `int` and converts back to the minimum; for `i32`
and `i64` the native quotient `min / -1` is not representable in the type of
the division, so the division is undefined instead of returning the
minimum. -/
theorem wrap_div_min_by_minus_one :
    operator_div i8 (-128) (-1) = Outcome.ret (-128) ∧
    operator_div i16 (-32768) (-1) = Outcome.ret (-32768) ∧
    operator_div i32 (-2147483648) (-1) = Outcome.undefined ∧
    operator_div i64 (-9223372036854775808) (-1) = Outcome.undefined := by
  decide

/-- C17, as stated, fails when the limits are wider than the operand type:
with an 8-bit signed accumulator, limits `-1000` and `1000` and
`a = b = 100`, the exact sum `200` is within the limits, yet `a += b` stores
`200` in 8 bits and `try_add` returns `Error::None` with the accumulator
`-56`. -/
theorem try_add_limits_beyond_operand_type :
    try_add ⟨Sign.Signed, 8⟩ ⟨CType.int_fast64_t, -1000, 1000⟩ 100 100
      = some (Error.None, -56) ∧
    checked_exact (-1000) 1000 (100 + 100) 100 = (Error.None, 200) := by
  decide

/-- C17, amended: `try_add` and `try_sub` are exact against the limits they
are given, provided the limits are values of the operand type `T` (and of the
limits' own type).  For limits `min ≤ 0 ≤ max` and operands `a`, `b` in
`[min, max]`, each returns Underflow when the exact result is below `min`,
Overflow when it is above `max`, and otherwise `Error::None` with the exact
result in the accumulator; the intermediate expressions `min - b`, `max + b`
(for `b < 0`) and `max - b`, `min + b` (for `b ≥ 0`) are computed exactly and
stay within `[min, max]`. -/
theorem try_add_sub_exact (T : CType) (L : Limits) (a b : Int)
    (hT : T.bits = 8 ∨ T.bits = 16 ∨ T.bits = 32 ∨ T.bits = 64)
    (hL : L.limit_type.bits = 8 ∨ L.limit_type.bits = 16 ∨ L.limit_type.bits = 32 ∨
      L.limit_type.bits = 64)
    (hmin : L.min ≤ 0) (hmax : 0 ≤ L.max)
    (hTl : T.lo ≤ L.min ∧ L.max ≤ T.hi)
    (hLl : L.limit_type.lo ≤ L.min ∧ L.max ≤ L.limit_type.hi)
    (ha : L.min ≤ a ∧ a ≤ L.max) (hb : L.min ≤ b ∧ b ≤ L.max) :
    try_add T L a b = some (checked_exact L.min L.max (a + b) a) ∧
    try_sub T L a b = some (checked_exact L.min L.max (a - b) a) ∧
    (b < 0 →
      Val.sub ⟨L.limit_type, L.min⟩ ⟨T, b⟩
        = some ⟨common L.limit_type T, L.min - b⟩ ∧
      L.min ≤ L.min - b ∧ L.min - b ≤ L.max ∧
      Val.add ⟨L.limit_type, L.max⟩ ⟨T, b⟩
        = some ⟨common L.limit_type T, L.max + b⟩ ∧
      L.min ≤ L.max + b ∧ L.max + b ≤ L.max) ∧
    (0 ≤ b →
      Val.sub ⟨L.limit_type, L.max⟩ ⟨T, b⟩
        = some ⟨common L.limit_type T, L.max - b⟩ ∧
      L.min ≤ L.max - b ∧ L.max - b ≤ L.max ∧
      Val.add ⟨L.limit_type, L.min⟩ ⟨T, b⟩
        = some ⟨common L.limit_type T, L.min + b⟩ ∧
      L.min ≤ L.min + b ∧ L.min + b ≤ L.max) := by
  obtain ⟨ha1, ha2⟩ := ha
  obtain ⟨hb1, hb2⟩ := hb
  obtain ⟨hT1, hT2⟩ := hTl
  obtain ⟨hL1, hL2⟩ := hLl
  -- every value of the interval is a value of both types
  have both : ∀ v : Int, L.min ≤ v → v ≤ L.max →
      (L.limit_type.lo ≤ v ∧ v ≤ L.limit_type.hi) ∧ (T.lo ≤ v ∧ v ≤ T.hi) := by
    intro v h1 h2
    exact ⟨⟨by omega, by omega⟩, ⟨by omega, by omega⟩⟩
  have hc := common_std L.limit_type T hL hT
  -- comparison of the accumulator with an intermediate value
  have cmp : ∀ x y : Int, L.min ≤ x → x ≤ L.max → L.min ≤ y → y ≤ L.max →
      Val.lt ⟨T, x⟩ ⟨common L.limit_type T, y⟩ = decide (x < y) ∧
      Val.lt ⟨common L.limit_type T, y⟩ ⟨T, x⟩ = decide (y < x) := by
    intro x y x1 x2 y1 y2
    obtain ⟨bx1, bx2⟩ := both x x1 x2
    obtain ⟨by1, by2⟩ := both y y1 y2
    obtain ⟨cx1, cx2, _⟩ := fits_common L.limit_type T x hL hT bx1 bx2
    obtain ⟨cy1, cy2, _⟩ := fits_common L.limit_type T y hL hT by1 by2
    exact ⟨val_lt_exact T _ x y hT hc ⟨bx2, cx1, cx2⟩ ⟨by2, cy1, cy2⟩,
      val_lt_exact _ T y x hc hT ⟨⟨cy1, cy2⟩, by2⟩ ⟨⟨cx1, cx2⟩, bx2⟩⟩
  have hzero := lt_zero_exact T b hT (both b hb1 hb2).2
  have bmin := both L.min (le_refl _) (by omega)
  have bmax := both L.max (by omega) (le_refl _)
  have bb := both b hb1 hb2
  have baT := (both a ha1 ha2).2
  by_cases hneg : b < 0
  · have s1 := val_sub_exact L.limit_type T L.min b hL hT bmin bb
      (both (L.min - b) (by omega) (by omega))
    have s2 := val_add_exact L.limit_type T L.max b hL hT bmax bb
      (both (L.max + b) (by omega) (by omega))
    have c1 := (cmp a (L.min - b) ha1 ha2 (by omega) (by omega)).1
    have c2 := (cmp a (L.max + b) ha1 ha2 (by omega) (by omega)).2
    refine ⟨?_, ?_, fun _ => ⟨s1, by omega, by omega, s2, by omega, by omega⟩,
      fun h => absurd h (by omega)⟩
    · simp only [try_add, hzero, hneg, decide_True, if_true, s1, Val.gt, c1]
      by_cases hu : a < L.min - b
      · have : a + b < L.min := by omega
        simp [hu, checked_exact, this]
      · have h1 : ¬ (a + b < L.min) := by omega
        have h2 : ¬ (L.max < a + b) := by omega
        simp only [hu, decide_False, checked_exact, h1, h2, if_false]
        rw [add_assign_exact T a b hT baT bb.2 (both (a + b) (by omega) (by omega)).2]
        rfl
    · simp only [try_sub, hzero, hneg, decide_True, if_true, s2, c2]
      by_cases ho : L.max + b < a
      · have h1 : ¬ (a - b < L.min) := by omega
        have h2 : L.max < a - b := by omega
        simp [ho, checked_exact, h1, h2]
      · have h1 : ¬ (a - b < L.min) := by omega
        have h2 : ¬ (L.max < a - b) := by omega
        simp only [ho, decide_False, checked_exact, h1, h2, if_false]
        rw [sub_assign_exact T a b hT baT bb.2 (both (a - b) (by omega) (by omega)).2]
        rfl
  · have s1 := val_sub_exact L.limit_type T L.max b hL hT bmax bb
      (both (L.max - b) (by omega) (by omega))
    have s2 := val_add_exact L.limit_type T L.min b hL hT bmin bb
      (both (L.min + b) (by omega) (by omega))
    have c1 := (cmp a (L.max - b) ha1 ha2 (by omega) (by omega)).2
    have c2 := (cmp a (L.min + b) ha1 ha2 (by omega) (by omega)).1
    refine ⟨?_, ?_, fun h => absurd h hneg,
      fun _ => ⟨s1, by omega, by omega, s2, by omega, by omega⟩⟩
    · simp only [try_add, hzero, hneg, decide_False, s1, c1]
      by_cases ho : L.max - b < a
      · have h1 : ¬ (a + b < L.min) := by omega
        have h2 : L.max < a + b := by omega
        simp [ho, checked_exact, h1, h2]
      · have h1 : ¬ (a + b < L.min) := by omega
        have h2 : ¬ (L.max < a + b) := by omega
        simp only [ho, decide_False, checked_exact, h1, h2, if_false]
        rw [add_assign_exact T a b hT baT bb.2 (both (a + b) (by omega) (by omega)).2]
        rfl
    · simp only [try_sub, hzero, hneg, decide_False, s2, Val.gt, c2]
      by_cases hu : a < L.min + b
      · have : a - b < L.min := by omega
        simp [hu, checked_exact, this]
      · have h1 : ¬ (a - b < L.min) := by omega
        have h2 : ¬ (L.max < a - b) := by omega
        simp only [hu, decide_False, checked_exact, h1, h2, if_false]
        rw [sub_assign_exact T a b hT baT bb.2 (both (a - b) (by omega) (by omega)).2]
        rfl

theorem try_add_sub_exact_witness :
    try_add ⟨Sign.Signed, 8⟩ ⟨CType.int_fast64_t, -128, 127⟩ 127 1
      = some (checked_exact (-128) 127 (127 + 1) 127) ∧
    try_sub ⟨Sign.Signed, 8⟩ ⟨CType.int_fast64_t, -128, 127⟩ 127 1
      = some (checked_exact (-128) 127 (127 - 1) 127) :=
  have h := try_add_sub_exact ⟨Sign.Signed, 8⟩ ⟨CType.int_fast64_t, -128, 127⟩ 127 1
    (by decide) (by decide) (by decide) (by decide) (by decide) (by decide)
    (by decide) (by decide)
  ⟨h.1, h.2.1⟩

/-- C18: failure atomicity of the checked primitives.  Whenever `try_add`,
`try_sub`, `try_mul` or `try_div` returns an `Error` other than `None`, the
accumulator it returns is the one it was given. -/
theorem try_failure_keeps_accumulator (T : CType) (L : Limits) (a b : Int)
    (e : Error) (r : Int)
    (h : try_add T L a b = some (e, r) ∨ try_sub T L a b = some (e, r) ∨
      try_mul T L a b = some (e, r) ∨ try_div T L a b = some (e, r))
    (hne : e ≠ Error.None) : r = a := by
  rcases h with h | h | h | h
  · unfold try_add at h
    split at h <;> split at h
    · simp at h
    · split at h
      · simp only [Option.some.injEq, Prod.mk.injEq] at h
        exact h.2.symm
      · exact absurd (none_path_error _ e r h) hne
    · simp at h
    · split at h
      · simp only [Option.some.injEq, Prod.mk.injEq] at h
        exact h.2.symm
      · exact absurd (none_path_error _ e r h) hne
  · unfold try_sub at h
    split at h <;> split at h
    · simp at h
    · split at h
      · simp only [Option.some.injEq, Prod.mk.injEq] at h
        exact h.2.symm
      · exact absurd (none_path_error _ e r h) hne
    · simp at h
    · split at h
      · simp only [Option.some.injEq, Prod.mk.injEq] at h
        exact h.2.symm
      · exact absurd (none_path_error _ e r h) hne
  · unfold try_mul at h
    split at h
    · simp only [Option.some.injEq, Prod.mk.injEq] at h
      exact absurd h.1.symm hne
    · split at h
      · simp at h
      · split at h
        · simp only [Option.some.injEq, Prod.mk.injEq] at h
          exact h.2.symm
        · exact absurd (none_path_error _ e r h) hne
  · unfold try_div at h
    split at h
    · simp only [Option.some.injEq, Prod.mk.injEq] at h
      exact h.2.symm
    · exact absurd (none_path_error _ e r h) hne

theorem try_failure_keeps_accumulator_witness :
    try_add isize.repr (portable_limits 64 Sign.Signed) 9223372036854775807 1
      = some (Error.Overflow, 9223372036854775807) ∧
    Error.Overflow ≠ Error.None ∧
    (9223372036854775807 : Int) = 9223372036854775807 :=
  ⟨by decide, by decide,
    try_failure_keeps_accumulator isize.repr (portable_limits 64 Sign.Signed)
      9223372036854775807 1 Error.Overflow 9223372036854775807
      (Or.inl (by decide)) (by decide)⟩

/-- C19: spurious failures of `try_mul`.  For `a = 1`, `b = -1` the check
`L::max() / b < a` is `-max < 1`, true, so `try_mul` returns
`Error::Overflow` although the product `-1` is within the limits:
`isize(1) * isize(-1)` throws `overflow_error("mul")`. -/
theorem try_mul_spurious_overflow :
    try_mul ⟨Sign.Signed, 64⟩
      ⟨CType.int_fast64_t, -9223372036854775808, 9223372036854775807⟩ 1 (-1)
      = some (Error.Overflow, 1) ∧
    try_mul ⟨Sign.Signed, 8⟩ ⟨CType.int_fast64_t, -128, 127⟩ 1 (-1)
      = some (Error.Overflow, 1) ∧
    operator_mul isize 1 (-1) = Outcome.throw (Exception.overflow_error "mul") := by
  decide

/-- C20: `Wrap`-policy subtraction inverts `Wrap`-policy addition.  For every
`Wrap`-policy type of 8, 16, 32 or 64 bits, every value `a` of the type and
every `b`, `(a + b) - b` and `(a - b) + b` both return `a`, wrap-around of
the intermediate result included, and `==` with `a` is true. -/
theorem wrap_sub_inverts_add (T : StrictIntType) (a b : Int)
    (hT : T.overflow = Overflow.Wrap)
    (hw : T.bits = 8 ∨ T.bits = 16 ∨ T.bits = 32 ∨ T.bits = 64)
    (ha : T.repr.lo ≤ a ∧ a ≤ T.repr.hi) :
    (operator_add T a b).bind (fun s => operator_sub T s b) = Outcome.ret a ∧
    (operator_sub T a b).bind (fun d => operator_add T d b) = Outcome.ret a ∧
    operator_eq T a a = true := by
  have hb : 0 < T.repr.bits := by
    show 0 < T.bits
    omega
  have e1 : convert T.repr (convert T.repr (a + b) - b) = a := by
    rw [convert_eq_of_congr T.repr (convert T.repr (a + b) - b) a,
      convert_id T.repr a hb ha]
    have := convert_congr T.repr (a + b)
    have e : convert T.repr (a + b) - b - a
        = convert T.repr (a + b) - (a + b) := by ring
    rw [e]; exact this
  have e2 : convert T.repr (convert T.repr (a - b) + b) = a := by
    rw [convert_eq_of_congr T.repr (convert T.repr (a - b) + b) a,
      convert_id T.repr a hb ha]
    have := convert_congr T.repr (a - b)
    have e : convert T.repr (a - b) + b - a
        = convert T.repr (a - b) - (a - b) := by ring
    rw [e]; exact this
  refine ⟨?_, ?_, ?_⟩
  · simp only [operator_add, operator_sub, hT, wrap_add_eq T.sign T.bits a b hw,
      wrap_sub_eq T.sign T.bits _ b hw, Outcome.bind]
    exact congrArg Outcome.ret e1
  · simp only [operator_add, operator_sub, hT, wrap_add_eq T.sign T.bits _ b hw,
      wrap_sub_eq T.sign T.bits a b hw, Outcome.bind]
    exact congrArg Outcome.ret e2
  · simp [operator_eq, Val.eq]

theorem wrap_sub_inverts_add_witness :
    i8.overflow = Overflow.Wrap ∧
    (i8.bits = 8 ∨ i8.bits = 16 ∨ i8.bits = 32 ∨ i8.bits = 64) ∧
    (i8.repr.lo ≤ 100 ∧ (100 : Int) ≤ i8.repr.hi) ∧
    ((operator_add i8 100 100).bind (fun s => operator_sub i8 s 100) = Outcome.ret 100 ∧
    (operator_sub i8 100 100).bind (fun d => operator_add i8 d 100) = Outcome.ret 100 ∧
    operator_eq i8 100 100 = true) :=
  ⟨rfl, by decide, by decide, wrap_sub_inverts_add i8 100 100 rfl (by decide) (by decide)⟩

end strict_int
